import Mathlib

/-!
Verification development for the netlist-to-VHDL code generation engine
(`netlist_to_vhdl.py` of the KicadFPGA repository).

The Python source is shallowly embedded below.  Strings are modelled by
`String` (lists of characters), Python big integers by `Int`, and the
numeric values produced by Python's `eval` on arithmetic expression
strings by `ℚ` (exact rational arithmetic; the source feeds `eval` only
strings over the characters `0-9 + - * / ( )` after an explicit regex
check, and on integer operands Python's arbitrary-precision arithmetic
agrees exactly with `ℤ ⊆ ℚ`; only `/` produces floats, which we model
exactly in `ℚ`).  Functions that can raise a Python exception return an
`Option`, with `none` standing for the raised exception.
-/

namespace KicadFPGA

/-- The `Generic` dataclass of `netlist_to_vhdl.py` (all fields, with the
dataclass defaults). -/
structure Generic where
  name        : String := ""
  namepadding : String := ""
  typestr     : String := ""
  default     : String := ""
  defaultstr  : String := ""
  commentstr  : String := ""
  value       : String := ""
  semicolon   : String := ";"
  comma       : String := ","
  vhdl_type   : String := ""
  high        : String := "0"
  low         : String := "0"
  length      : String := "1"
deriving DecidableEq, Repr

/-- Characters stripped by Python `int(str)` around the numeral
(the ASCII whitespace characters). -/
def pyWhitespace (c : Char) : Bool :=
  c == ' ' || c == '\t' || c == '\n' || c == '\r' || c == '\x0b' || c == '\x0c'

/-- Decimal digit value of a character, `none` for non-digits. -/
def pyDigit? (c : Char) : Option Nat :=
  if c.isDigit then some (c.toNat - 48) else none

/-- Digit run of a Python `int()` numeral: digits with single underscores
allowed between digits (as in `1_000`), never leading, trailing or doubled. -/
def pyDigitsAux : List Char → Option (List Nat)
  | [] => some []
  | '_' :: c :: cs => do
    let d ← pyDigit? c
    let ds ← pyDigitsAux cs
    return d :: ds
  | '_' :: [] => none
  | c :: cs => do
    let d ← pyDigit? c
    let ds ← pyDigitsAux cs
    return d :: ds

/-- Value of a most-significant-first digit list. -/
def digitsVal (ds : List Nat) : Nat :=
  ds.foldl (fun a d => a * 10 + d) 0

/-- The digit part of Python `int(str)`: nonempty, starts with a digit. -/
def pyIntDigits (cs : List Char) : Option Nat :=
  match cs with
  | [] => none
  | c :: _ => do
    let _ ← pyDigit? c
    let ds ← pyDigitsAux cs
    return digitsVal ds

/-- Python `int(s)` on a string: strip whitespace, optional single sign,
then an underscore-grouped decimal numeral; `none` models `ValueError`. -/
def pyInt (s : String) : Option Int :=
  let cs := ((s.data.dropWhile pyWhitespace).reverse.dropWhile pyWhitespace).reverse
  match cs with
  | '+' :: rest => (pyIntDigits rest).map (fun n => (n : Int))
  | '-' :: rest => (pyIntDigits rest).map (fun n => -(n : Int))
  | rest => (pyIntDigits rest).map (fun n => (n : Int))

/-- The decimal digit characters (value `0`-`9`; other inputs map to a
placeholder that no caller ever produces). -/
def digitChar10 : Nat → Char
  | 0 => '0'
  | 1 => '1'
  | 2 => '2'
  | 3 => '3'
  | 4 => '4'
  | 5 => '5'
  | 6 => '6'
  | 7 => '7'
  | 8 => '8'
  | 9 => '9'
  | _ => '*'

/-- Numeric value of a decimal digit character (`10` for non-digits). -/
def charDigitVal (c : Char) : Nat :=
  if c = '0' then 0
  else if c = '1' then 1
  else if c = '2' then 2
  else if c = '3' then 3
  else if c = '4' then 4
  else if c = '5' then 5
  else if c = '6' then 6
  else if c = '7' then 7
  else if c = '8' then 8
  else if c = '9' then 9
  else 10

/-- Decimal digits of `n`, least significant first; fuel-indexed
structural recursion (fuel `n` suffices, since `n / 10` shrinks fast). -/
def natToRevDigitsAux : Nat → Nat → List Char
  | 0, n => [digitChar10 (n % 10)]
  | fuel+1, n =>
    if n < 10 then [digitChar10 n]
    else digitChar10 (n % 10) :: natToRevDigitsAux fuel (n / 10)

/-- Python `str(n)` for a natural number. -/
def pyStrNat (n : Nat) : List Char :=
  (natToRevDigitsAux n n).reverse

/-- Python `str(i)` for an integer (canonical decimal form). -/
def str_of_int (i : Int) : String :=
  if i < 0 then String.mk ('-' :: pyStrNat i.natAbs) else String.mk (pyStrNat i.natAbs)

/-- Python `s.replace(old, new)` for nonempty `old`: left-to-right,
non-overlapping; fuel-indexed (fuel `s.length` suffices). -/
def pyReplaceAux (pat rep : List Char) : Nat → List Char → List Char
  | _, [] => []
  | 0, s => s
  | fuel+1, c :: cs =>
    if pat.isPrefixOf (c :: cs) then
      rep ++ pyReplaceAux pat rep fuel (List.drop pat.length (c :: cs))
    else
      c :: pyReplaceAux pat rep fuel cs

/-- Python `s.replace(old, new)`.  An empty `old` inserts `new` at every
character boundary, including both ends, exactly as Python does. -/
def pyReplace (s pat rep : String) : String :=
  if pat.data.isEmpty then
    String.mk (rep.data ++ s.data.flatMap (fun c => c :: rep.data))
  else
    String.mk (pyReplaceAux pat.data rep.data s.data.length s.data)

/-- Substring containment on character lists (Python `in` on strings):
`needle` is a prefix of some suffix of `hay`. -/
def pyInAux : List Char → List Char → Bool
  | n, [] => n.isEmpty
  | n, c :: cs => n.isPrefixOf (c :: cs) || pyInAux n cs

/-- Python `needle in hay` on strings (substring containment). -/
def pyInStr (needle hay : String) : Bool :=
  pyInAux needle.data hay.data

/-- The character class of the regex check `[^+\-*/()0-9]` in
`parse_portsize_part`: characters an arithmetic result may contain. -/
def arithChar (c : Char) : Bool :=
  c.isDigit || c == '+' || c == '-' || c == '*' || c == '/' || c == '(' || c == ')'

/-- `re.search(r'[^+\-*/()0-9]', s)` succeeds, i.e. `s` has a character
outside the arithmetic class. -/
def hasNonArith (s : String) : Bool :=
  s.data.any (fun c => !(arithChar c))

/-- The substitution loop at the top of `parse_portsize_part`: walk the
generic list in order; integer-typed generics whose name occurs in the
current expression are substituted (all occurrences) by their `int()`
value; a generic whose value fails `int()` triggers the early return
(first component `true`). -/
def runSubst : List Generic → String → Bool × String
  | [], s => (false, s)
  | g :: gs, s =>
    if g.typestr ≠ ("integer") then runSubst gs s
    else if pyInStr g.name s then
      match pyInt g.value with
      | none => (true, s)
      | some v => runSubst gs (pyReplace s g.name (str_of_int v))
    else runSubst gs s

/-- Tokens of a Python arithmetic expression over `0-9 + - * / ( )`
(`dslash` is `//`, `dstar` is `**`). -/
inductive PyTok where
  | num (n : Nat)
  | plus
  | minus
  | star
  | slash
  | dslash
  | dstar
  | lp
  | rp
deriving DecidableEq, Repr

/-- Value of a most-significant-first decimal digit character run. -/
def digitCharsVal (ds : List Char) : Nat :=
  ds.foldl (fun a c => a * 10 + (c.toNat - 48)) 0

/-- Tokenizer for Python arithmetic expressions restricted to the
characters `0-9 + - * / ( )` (all the call site can supply after its
regex check).  A decimal literal with a leading zero is a Python
`SyntaxError` unless every digit is zero (`00` is legal, `01` is not). -/
def pyLexAux : Nat → List Char → Option (List PyTok)
  | _, [] => some []
  | 0, _ => none
  | fuel+1, c :: cs =>
    if c.isDigit then
      let ds := List.takeWhile Char.isDigit (c :: cs)
      let rest := List.dropWhile Char.isDigit (c :: cs)
      if c == '0' && ds.any (fun d => d ≠ '0') then none
      else (pyLexAux fuel rest).map (fun ts => PyTok.num (digitCharsVal ds) :: ts)
    else if c == '*' then
      match cs with
      | '*' :: cs' => (pyLexAux fuel cs').map (fun ts => PyTok.dstar :: ts)
      | _ => (pyLexAux fuel cs).map (fun ts => PyTok.star :: ts)
    else if c == '/' then
      match cs with
      | '/' :: cs' => (pyLexAux fuel cs').map (fun ts => PyTok.dslash :: ts)
      | _ => (pyLexAux fuel cs).map (fun ts => PyTok.slash :: ts)
    else if c == '+' then (pyLexAux fuel cs).map (fun ts => PyTok.plus :: ts)
    else if c == '-' then (pyLexAux fuel cs).map (fun ts => PyTok.minus :: ts)
    else if c == '(' then (pyLexAux fuel cs).map (fun ts => PyTok.lp :: ts)
    else if c == ')' then (pyLexAux fuel cs).map (fun ts => PyTok.rp :: ts)
    else none

/-- Rational arithmetic via `mkRat` (the core `Rat.add`-family is marked
irreducible, which would block kernel evaluation of witnesses; these
compute the same exact values).  A normalized rational is zero iff its
numerator is. -/
def qAdd (a b : ℚ) : ℚ :=
  mkRat (a.num * (b.den : Int) + b.num * (a.den : Int)) (a.den * b.den)

/-- Exact rational subtraction. -/
def qSub (a b : ℚ) : ℚ :=
  mkRat (a.num * (b.den : Int) - b.num * (a.den : Int)) (a.den * b.den)

/-- Exact rational multiplication. -/
def qMul (a b : ℚ) : ℚ :=
  mkRat (a.num * b.num) (a.den * b.den)

/-- Exact rational negation. -/
def qNeg (a : ℚ) : ℚ :=
  mkRat (-a.num) a.den

/-- Exact rational inverse (`0` maps to `0`, as in `Rat.inv`; never
reached on `0` by the evaluator, which guards divisions). -/
def qInv (a : ℚ) : ℚ :=
  mkRat (if a.num < 0 then -(a.den : Int) else (a.den : Int)) a.num.natAbs

/-- Python `/` (true division); `none` models `ZeroDivisionError`. -/
def pyDivQ (a b : ℚ) : Option ℚ :=
  if b.num = 0 then none else some (qMul a (qInv b))

/-- Floor of a rational, computably (`den` is positive). -/
def ratFloor (q : ℚ) : Int :=
  Int.fdiv q.num (q.den : Int)

/-- Python `//` (floor division); `none` models `ZeroDivisionError`. -/
def pyFloorDivQ (a b : ℚ) : Option ℚ :=
  if b.num = 0 then none else some (Rat.ofInt (ratFloor (qMul a (qInv b))))

/-- `a ^ n` on rationals by structural recursion (kernel-reducible). -/
def qpowNat (a : ℚ) : Nat → ℚ
  | 0 => Rat.ofInt 1
  | n+1 => qMul a (qpowNat a n)

/-- Python `**` on exact rationals.  Integer exponents are modelled
exactly; a fractional exponent yields an irrational float in Python and
is outside this exact model (`none`).  `0 ** negative` raises
`ZeroDivisionError` (`none`). -/
def pyPowQ (a b : ℚ) : Option ℚ :=
  if b.den = 1 then
    if 0 ≤ b.num then some (qpowNat a b.num.toNat)
    else if a.num = 0 then none
    else some (qInv (qpowNat a b.num.natAbs))
  else none

/-- Python `int(x)` on a number: truncation toward zero. -/
def pyIntOfRat (q : ℚ) : Int :=
  Int.tdiv q.num (q.den : Int)

mutual

/-- `expr := term (('+'|'-') term)*` of the Python expression grammar. -/
def pExpr : Nat → List PyTok → Option (ℚ × List PyTok)
  | 0, _ => none
  | fuel+1, ts => do
    let (v, ts') ← pTerm fuel ts
    pExprLoop fuel v ts'

/-- Left-associated chain of `+`/`-` continuations. -/
def pExprLoop : Nat → ℚ → List PyTok → Option (ℚ × List PyTok)
  | 0, _, _ => none
  | fuel+1, v, ts =>
    match ts with
    | PyTok.plus :: ts' => do
      let (w, ts'') ← pTerm fuel ts'
      pExprLoop fuel (qAdd v w) ts''
    | PyTok.minus :: ts' => do
      let (w, ts'') ← pTerm fuel ts'
      pExprLoop fuel (qSub v w) ts''
    | _ => some (v, ts)

/-- `term := unary (('*'|'/'|'//') unary)*`. -/
def pTerm : Nat → List PyTok → Option (ℚ × List PyTok)
  | 0, _ => none
  | fuel+1, ts => do
    let (v, ts') ← pUnary fuel ts
    pTermLoop fuel v ts'

/-- Left-associated chain of `*`/`/`/`//` continuations. -/
def pTermLoop : Nat → ℚ → List PyTok → Option (ℚ × List PyTok)
  | 0, _, _ => none
  | fuel+1, v, ts =>
    match ts with
    | PyTok.star :: ts' => do
      let (w, ts'') ← pUnary fuel ts'
      pTermLoop fuel (qMul v w) ts''
    | PyTok.slash :: ts' => do
      let (w, ts'') ← pUnary fuel ts'
      let u ← pyDivQ v w
      pTermLoop fuel u ts''
    | PyTok.dslash :: ts' => do
      let (w, ts'') ← pUnary fuel ts'
      let u ← pyFloorDivQ v w
      pTermLoop fuel u ts''
    | _ => some (v, ts)

/-- `unary := ('+'|'-') unary | power` (Python `u_expr`). -/
def pUnary : Nat → List PyTok → Option (ℚ × List PyTok)
  | 0, _ => none
  | fuel+1, ts =>
    match ts with
    | PyTok.minus :: ts' => (pUnary fuel ts').map (fun vr => (qNeg vr.1, vr.2))
    | PyTok.plus :: ts' => pUnary fuel ts'
    | _ => pPow fuel ts

/-- `power := atom ['**' unary]` (exponent right-associates, and may
carry a unary sign, exactly Python's `power` production). -/
def pPow : Nat → List PyTok → Option (ℚ × List PyTok)
  | 0, _ => none
  | fuel+1, ts => do
    let (b, ts') ← pAtom fuel ts
    match ts' with
    | PyTok.dstar :: ts'' => do
      let (e, ts3) ← pUnary fuel ts''
      let v ← pyPowQ b e
      return (v, ts3)
    | _ => return (b, ts')

/-- `atom := literal | '(' expr ')'`. -/
def pAtom : Nat → List PyTok → Option (ℚ × List PyTok)
  | 0, _ => none
  | fuel+1, ts =>
    match ts with
    | PyTok.num n :: ts' => some (Rat.ofInt (Int.ofNat n), ts')
    | PyTok.lp :: ts' => do
      let (v, ts'') ← pExpr fuel ts'
      match ts'' with
      | PyTok.rp :: ts3 => some (v, ts3)
      | _ => none
    | _ => none

end

/-- Python `eval` on an arithmetic expression string over the characters
`0-9 + - * / ( )`, in exact rational arithmetic; `none` models any raised
exception (`SyntaxError`, `ZeroDivisionError`) or a value outside the
exact model. -/
def pyEvalQ (s : String) : Option ℚ := do
  let ts ← pyLexAux (s.data.length + 1) s.data
  let (v, rest) ← pExpr (10 * (ts.length + 1)) ts
  if rest = [] then some v else none

/-- `parse_portsize_part` of `netlist_to_vhdl.py`: substitute the known
integer generics into the size expression; if a generic value fails
`int()`, return the partially substituted string; if a character outside
the arithmetic class remains, return the string; otherwise return
`int(eval(...))`.  `none` models an exception escaping the function. -/
def parse_portsize_part (size_part : String) (generic_list : List Generic) :
    Option (Sum Int String) :=
  match runSubst generic_list size_part with
  | (true, s) => some (Sum.inr s)
  | (false, s) =>
    if hasNonArith s then some (Sum.inr s)
    else (pyEvalQ s).map (fun q => Sum.inl (pyIntOfRat q))

/-- Python `str(x)` for a value that is either an int or a str (the type
of the `high`/`low` locals in `Port.update_from_name`). -/
def str_of_val : Sum Int String → String
  | Sum.inl i => str_of_int i
  | Sum.inr s => s

/-- Python `s.split(sep)` for a single-character separator. -/
def splitChar (sep : Char) : List Char → List (List Char)
  | [] => [[]]
  | c :: cs =>
    if c = sep then [] :: splitChar sep cs
    else
      match splitChar sep cs with
      | [] => [[c]]
      | p :: ps => (c :: p) :: ps

/-- The `\)$` tail of the name-hint regex `^(.*?)\((.+)\)$`: the input
must be `M ++ ")"`, or `M ++ ")\n"` since Python `$` also matches just
before a final newline; the greedy `(.+)` group `M` must be nonempty and
newline-free (`.` does not match `\n`). -/
def tailMatch (rest : List Char) : Option (List Char) :=
  let body : Option (List Char) :=
    match rest.reverse with
    | ')' :: rs => some rs.reverse
    | '\n' :: ')' :: rs => some rs.reverse
    | _ => none
  match body with
  | some m => if m.isEmpty || m.any (fun c => c == '\n') then none else some m
  | none => none

/-- Search for the lazy `(.*?)\(` split: the first `(` (reading left to
right, never crossing a newline) whose remainder matches `(.+)\)$`. -/
def findHint : List Char → Option (List Char × List Char)
  | [] => none
  | c :: rest =>
    if c = '\n' then none
    else if c = '(' then
      match tailMatch rest with
      | some m => some ([], m)
      | none => (findHint rest).map (fun pm => (c :: pm.1, pm.2))
    else (findHint rest).map (fun pm => (c :: pm.1, pm.2))

/-- The regex `re.search(r'^(.*?)\((.+)\)$', name)` used by
`Port.update_from_name`: on success, the groups (base name, hint). -/
def matchNameHint (s : String) : Option (String × String) :=
  (findHint s.data).map (fun pm => (String.mk pm.1, String.mk pm.2))

/-- The `Port` dataclass of `netlist_to_vhdl.py` (all fields, with the
dataclass defaults). -/
structure Port where
  name        : String := ""
  namepadding : String := ""
  dirstr      : String := ""
  typestr     : String := ""
  semicolon   : String := ";"
  comma       : String := ","
  commentstr  : String := ""
  num         : String := ""
  vhdl_type   : String := ""
  high        : String := "0"
  low         : String := "0"
  length      : String := "1"
  target      : String := ""
deriving DecidableEq, Repr

/-- `Port.copy_port`: builds a new `Port` copying every field of the
source; with value semantics this is the identity on the record. -/
def Port.copy_port (source : Port) : Port :=
  { source with }

/-- The `u`/`uf`/`s`/`sf`/named-type/vector dispatch of
`Port.update_from_name` (lines 144-149 of the source): from the raw hint,
the `vhdl_type` family and the remaining range text. -/
def hintDispatch (hint : String) : String × String :=
  if ['u', 'f'].isPrefixOf hint.data then (("ufixed" : String), String.mk (hint.data.drop 2))
  else if ['u'].isPrefixOf hint.data then (("unsigned" : String), String.mk (hint.data.drop 1))
  else if ['s', 'f'].isPrefixOf hint.data then (("sfixed" : String), String.mk (hint.data.drop 2))
  else if ['s'].isPrefixOf hint.data then (("signed" : String), String.mk (hint.data.drop 1))
  else if pyInStr (" ") hint then
    let parts := splitChar ' ' hint.data
    (String.mk (parts.headD []), String.mk (parts.getD 1 []))
  else (("std_logic_vector" : String), hint)

/-- `Port.update_from_name` of `netlist_to_vhdl.py`: decode the
`name(hint)` convention on `p.name`, filling `vhdl_type`, `high`, `low`
and `length` (and stripping the hint from `name` on the range path).
`none` models an exception escaping the method: an `eval` failure inside
`parse_portsize_part`, or the `TypeError` raised when a hint has no `:`
and `parse_portsize_part` is applied to the Python int `0`. -/
def Port.update_from_name (p : Port) (generic_list : List Generic := [])
    (do_eval : Bool := true) : Option Port :=
  match matchNameHint p.name with
  | none =>
    some { p with vhdl_type := "std_logic", high := "0", low := "0", length := "1" }
  | some (name0, hint) =>
    if hint = ("b") then
      some { p with vhdl_type := "boolean", high := "0", low := "0", length := "1" }
    else if hint = ("integer") then
      some { p with vhdl_type := "integer", high := "31", low := "0", length := "32" }
    else
      let p1 : Port := { p with name := name0 }
      let vtts := hintDispatch hint
      let range_parts := splitChar ':' vtts.2.data
      do
        let hl : Sum Int String × Sum Int String ←
          match range_parts with
          | [] => none   -- unreachable: `split` never returns an empty list
          | [h] =>
            if do_eval then
              -- `low_str` is the Python int `0`; `parse_portsize_part(0, ...)`
              -- raises `TypeError` (after the `high` call, which may itself raise)
              none
            else
              pure (Sum.inr (String.mk h), Sum.inl 0)
          | h :: l :: _ =>
            if do_eval then do
              let hi ← parse_portsize_part (String.mk h) generic_list
              let lo ← parse_portsize_part (String.mk l) generic_list
              pure (hi, lo)
            else
              pure (Sum.inr (String.mk h), Sum.inr (String.mk l))
        let lengthstr : String :=
          match hl.1, hl.2 with
          | Sum.inl hi, Sum.inl lo => str_of_int (hi - lo + 1)
          | _, _ => str_of_val hl.1 ++ "-" ++ str_of_val hl.2
        let highstr := str_of_val hl.1
        let lowstr := str_of_val hl.2
        pure { p1 with
                length := lengthstr
                high := highstr
                low := lowstr
                vhdl_type := vtts.1 ++ "(" ++ highstr ++ " downto " ++ lowstr ++ ")" }

/-- Value of a digit string read most-significant-first after reversal
(helper for reasoning about `pyStrNat`). -/
def revDigitsVal : List Char → Nat
  | [] => 0
  | c :: cs => charDigitVal c + 10 * revDigitsVal cs

/-- Python `s.startswith(pre)`. -/
def pyStartsWith (pre s : String) : Bool :=
  pre.data.isPrefixOf s.data

/-! ### Structured netlist model (`netlist.py` dataclasses) -/

/-- `netlist.CompProperty`. -/
structure CompProperty where
  name  : String := ""
  value : String := ""
deriving DecidableEq, Repr

/-- `netlist.Field` (a libpart field). -/
structure Field where
  name  : String := ""
  value : String := ""
deriving DecidableEq, Repr

/-- `netlist.Pin`. -/
structure Pin where
  num  : String := ""
  name : String := ""
  type : String := ""
deriving DecidableEq, Repr

/-- `netlist.Libpart` (metadata fields kept for completeness). -/
structure Libpart where
  lib         : String := ""
  part        : String := ""
  description : String := ""
  docs        : String := ""
  footprints  : List String := []
  fields      : List Field := []
  pins        : List Pin := []
deriving DecidableEq, Repr

/-- `netlist.Libsource`. -/
structure Libsource where
  lib         : String := ""
  part        : String := ""
  description : String := ""
deriving DecidableEq, Repr

/-- `netlist.Comp` (a netlist component occurrence). -/
structure Comp where
  ref        : String := ""
  value      : String := ""
  footprint  : String := ""
  datasheet  : String := ""
  libsource  : Libsource := {}
  properties : List CompProperty := []
  tstamps    : String := ""
deriving DecidableEq, Repr

/-- `netlist.Node` (one endpoint of a net). -/
structure Node where
  ref         : String := ""
  pin         : String := ""
  pintype     : String := ""
  pinfunction : String := ""
deriving DecidableEq, Repr

/-- `netlist.Net`. -/
structure Net where
  code  : String := ""
  name  : String := ""
  nodes : List Node := []
deriving DecidableEq, Repr

/-! ### Component/Port/Generic builder (`netlist_to_vhdl.py`) -/

/-- The `Component` dataclass.  The Python `component` field holds a
reference to the backing library `Component`; the generator only ever
assigns it (never reads it), so we record the backing part's name. -/
structure Component where
  name          : String := ""
  instance_name : String := ""
  ports         : List Port := []
  properties    : List Generic := []
  component     : Option String := none
deriving DecidableEq, Repr

/-- The `Connection` dataclass.  In Python `port` aliases the mutable
`Port` object; here we store the port's value at the moment the
connection is made (after its `target` is pointed at the signal), which
is the state every read inside `generate_code` observes. -/
structure Connection where
  ref  : String := ""
  pin  : String := ""
  port : Option Port := none
deriving DecidableEq, Repr

/-- The `Signal` dataclass. -/
structure Signal where
  name        : String := ""
  code        : String := ""
  vhdl_type   : String := ""
  connections : List Connection := []
deriving DecidableEq, Repr

/-- Python `str.lower()` (ASCII case mapping).  `String.toLower` maps
the same `Char.toLower` over the string but through byte positions that
do not kernel-reduce, so we map over the character list directly. -/
def pyLower (s : String) : String :=
  String.mk (s.data.map Char.toLower)

/-- `find_property`: first property with the given name, else the
default. -/
def find_property (property_list : List CompProperty) (name default : String) : String :=
  match property_list.find? (fun prop => prop.name == name) with
  | some prop => prop.value
  | none => default

/-- Split a list at the LAST occurrence of `pat` (used to model the
greedy groups of `re.search(r'(.*)\((.*)\) -- (.*)', s)`). -/
def lastSplitAux (pat : List Char) : List Char → Option (List Char × List Char)
  | [] => if pat.isEmpty then some ([], []) else none
  | c :: cs =>
    match lastSplitAux pat cs with
    | some (b, a) => some (c :: b, a)
    | none =>
      if pat.isPrefixOf (c :: cs) then some ([], List.drop pat.length (c :: cs))
      else none

/-- The `name(type) -- description` regex
`re.search(r'(.*)\((.*)\) -- (.*)', s)` of the builder, for the
newline-free strings property and field names are in practice: all three
groups are greedy, so the description starts at the last `) -- ` and the
name ends at the last `(` before it. -/
def matchGenericPattern (s : String) : Option (String × String × String) := do
  let (pre, c3) ← lastSplitAux [')', ' ', '-', '-', ' '] s.data
  let (g1, g2) ← lastSplitAux ['('] pre
  return (String.mk g1, String.mk g2, String.mk c3)

/-- `Component.from_libpart`: generics from fields matching the
`name(type) -- description` pattern, ports from pins with the direction
mapping `input→in, output→out, bidirectional→inout, else verbatim`. -/
def Component.from_libpart (libpart : Libpart) : Component :=
  { name := libpart.part
    properties := libpart.fields.filterMap (fun field =>
      (matchGenericPattern field.name).map (fun g =>
        { name := g.1, typestr := g.2.1, commentstr := g.2.2,
          default := field.value, value := field.value }))
    ports := libpart.pins.map (fun pin =>
      { name := pin.name
        num := pin.num
        dirstr := if pin.type = ("input") then "in"
                  else if pin.type = ("output") then "out"
                  else if pin.type = ("bidirectional") then "inout"
                  else pin.type }) }

/-- `Component.from_comp`: name and reference from the netlist component,
generic overrides from properties matching `name(type) -- description`. -/
def Component.from_comp (comp : Comp) : Component :=
  { name := comp.libsource.part
    instance_name := comp.ref
    properties := comp.properties.filterMap (fun property =>
      (matchGenericPattern property.name).map (fun g =>
        { name := g.1, typestr := g.2.1, commentstr := g.2.2,
          value := property.value })) }

/-- A Python `dict` as an insertion-ordered association list with
overwrite-on-repeated-key (how `direct_connects` behaves). -/
def dictInsert (d : List (String × String)) (k v : String) : List (String × String) :=
  if d.any (fun kv => kv.1 == k) then d.map (fun kv => if kv.1 == k then (k, v) else kv)
  else d ++ [(k, v)]

/-- Lookup in the association-list dict (keys are unique by
construction). -/
def dictLookup (d : List (String × String)) (k : String) : Option String :=
  (d.find? (fun kv => kv.1 == k)).map (fun kv => kv.2)

/-- State threaded through the `PARAMETER`/`CONSTANT` pass of
`generate_code` (the write-only `full_item_list` is omitted: nothing in
the generator reads it). -/
structure ParamSt where
  generic_list    : List Generic := []
  constant_list   : List Generic := []
  direct_connects : List (String × String) := []
deriving DecidableEq, Repr

/-- The first components loop of `generate_code` (lines 342-362): a
`PARAMETER` instance becomes a module generic, a `CONSTANT` instance a
constant, both recorded in the direct-connect table. -/
def processParamConst (st : ParamSt) (comp : Comp) : ParamSt :=
  if comp.libsource.part = ("PARAMETER") then
    let typestr := find_property comp.properties ("TYPE") ("integer")
    let default := find_property comp.properties ("DEFAULT") ("0")
    let gen : Generic := { name := comp.value, typestr := typestr, default := default,
                           vhdl_type := typestr, value := default }
    { st with generic_list := st.generic_list ++ [gen]
              direct_connects := dictInsert st.direct_connects comp.ref gen.name }
  else if comp.libsource.part = ("CONSTANT") then
    let typestr := find_property comp.properties ("TYPE") ("integer")
    let const : Generic := { name := find_property comp.properties ("NAME") ("ERROR_NO_NAME")
                             typestr := typestr
                             default := comp.value
                             vhdl_type := typestr }
    { st with constant_list := st.constant_list ++ [const]
              direct_connects := dictInsert st.direct_connects comp.ref const.name }
  else st

/-- The inner substitution loop of the instance-property pass: ev ery
other property whose name occurs in the value is substituted in, in list
order, against the running value. -/
def substOthers (subs : List Generic) (pname : String) (v : String) : String :=
  subs.foldl (fun acc sub =>
    if sub.name ≠ pname ∧ pyInStr sub.name acc then pyReplace acc sub.name sub.value
    else acc) v

/-- The cross-substitution pass over instance properties (lines 388-392):
the outer loop walks the list by position, each step substituting the
other properties' current values into a not-yet-numeric value. -/
def propsCrossSubst (props : List Generic) : List Generic :=
  (List.range props.length).foldl (fun ps i =>
    match ps.get? i with
    | none => ps
    | some prop =>
      if hasNonArith prop.value then
        ps.set i { prop with value := substOthers ps prop.name prop.value }
      else ps) props

/-- The evaluation pass over instance properties (lines 393-395): every
fully numeric value is replaced by `f-string of int(eval(value))`;
`none` models an `eval` exception (e.g. an empty or malformed value). -/
def propsEval (props : List Generic) : Option (List Generic) :=
  props.mapM (fun prop =>
    if hasNonArith prop.value then some prop
    else (pyEvalQ prop.value).map (fun q => { prop with value := str_of_int (pyIntOfRat q) }))

/-- The library-part lookup of the instance branch (lines 380-385): every
matching library component is recorded as backing component and has
copies of its ports appended. -/
def attachLibparts (component_list : List Component) (component : Component) : Component :=
  component_list.foldl (fun comp libpart_comp =>
    if libpart_comp.name == comp.name then
      { comp with component := some libpart_comp.name
                  ports := comp.ports ++ libpart_comp.ports.map Port.copy_port }
    else comp) component

/-- The instance branch of the second components loop (lines 378-401):
build the instance, resolve its properties to integers where possible,
then decode every port name against the resolved properties. -/
def buildInstance (component_list : List Component) (comp : Comp) : Option Component := do
  let component := attachLibparts component_list (Component.from_comp comp)
  let props ← propsEval (propsCrossSubst component.properties)
  let ports ← component.ports.mapM (fun port => port.update_from_name props true)
  return { component with properties := props, ports := ports }

/-- State threaded through the second components loop of `generate_code`
(the write-only `full_item_list` is again omitted). -/
structure BuildSt where
  port_list       : List Port := []
  instance_list   : List Component := []
  direct_connects : List (String × String) := []
deriving DecidableEq, Repr

/-- The second components loop of `generate_code` (lines 364-401): an
`IN`/`OUT`/`INOUT` pseudo-part becomes a module port (and a
direct-connect entry); `PARAMETER`/`CONSTANT` were handled by the first
loop; everything else becomes an instance. -/
def processComp (generic_list : List Generic) (component_list : List Component)
    (st : BuildSt) (comp : Comp) : Option BuildSt :=
  if (["IN", "OUT", "INOUT"] : List String).contains comp.libsource.part then do
    let port0 : Port := { name := comp.value
                          dirstr := pyLower comp.libsource.part
                          typestr := find_property comp.properties ("TYPE") ("std_logic") }
    let port ← port0.update_from_name generic_list false
    return { st with port_list := st.port_list ++ [port]
                     direct_connects := dictInsert st.direct_connects comp.ref port.name }
  else if (["PARAMETER", "CONSTANT"] : List String).contains comp.libsource.part then
    some st
  else do
    let component ← buildInstance component_list comp
    return { st with instance_list := st.instance_list ++ [component] }

/-! ### Net consolidation (`generate_code`, lines 426-478) -/

/-- The zero/open literal an unconnected net assigns to a port: inputs
get a type-appropriate zero (`false` for boolean, `'0'` for a single
`std_logic`, the aggregate otherwise); everything else gets `open`. -/
def unconnectedTarget (port : Port) : String :=
  if port.dirstr = ("in") then
    if port.vhdl_type = ("boolean") then "false"
    else if port.vhdl_type = ("std_logic") then "'0'"
    else "(others => '0')"
  else "open"

/-- One node of an `unconnected` net: every port of every instance
matching `(ref, pin)` has its target set (the nested loops of lines
429-442 have no break). -/
def applyUnconnNode (insts : List Component) (node : Node) : List Component :=
  insts.map (fun component =>
    if component.instance_name == node.ref then
      { component with ports := component.ports.map (fun port =>
          if port.num == node.pin then { port with target := unconnectedTarget port }
          else port) }
    else component)

/-- After a `(`, try to complete the lazy `re.sub(r'\(.*?:.*?\)', ...)`
match: the nearest `:` (not crossing a newline) then the nearest `)`
after it (not crossing a newline); on success return the remainder. -/
def reSubRangeTry (rest : List Char) : Option (List Char) :=
  let win1 := rest.takeWhile (fun c => !(c == ':') && !(c == '\n'))
  match rest.drop win1.length with
  | ':' :: rest2 =>
    let win2 := rest2.takeWhile (fun c => !(c == ')') && !(c == '\n'))
    (match rest2.drop win2.length with
     | ')' :: rest4 => some rest4
     | _ => none)
  | _ => none

/-- `re.sub(r'\(.*?:.*?\)', '', s)`: delete every (leftmost-first,
non-overlapping) lazy range annotation; fuel-indexed (fuel `s.length`
suffices, every match consumes at least three characters). -/
def reSubRangesAux : Nat → List Char → List Char
  | 0, s => s
  | _, [] => []
  | fuel+1, c :: cs =>
    if c = '(' then
      match reSubRangeTry cs with
      | some rest => reSubRangesAux fuel rest
      | none => c :: reSubRangesAux fuel cs
    else c :: reSubRangesAux fuel cs

/-- The candidate signal name derived from a net label (lines 445-449):
strip `/`, delete `(...:...)` bit ranges, map `-` to `_`, drop leftover
brackets. -/
def signalName (net : Net) : String :=
  let name := pyReplace net.name ("/") ("")
  let name := String.mk (reSubRangesAux name.data.length name.data)
  let name := pyReplace name ("-") ("_")
  let name := pyReplace name ("(") ("")
  pyReplace name (")") ("")

/-- Resolve one node of an ordinary net (lines 460-467): point every
matching instance port's target at the signal; the returned port is the
last match (what `connection.port` ends up referencing), or the
previously found one if this fold step matches nothing. -/
def connectNode (sname : String) (insts : List Component) (node : Node) :
    List Component × Option Port :=
  insts.foldl (fun acc component =>
    if component.instance_name == node.ref then
      let updated : Component := { component with ports := component.ports.map (fun port =>
        if port.num == node.pin then { port with target := sname } else port) }
      let lastMatch := (updated.ports.filter (fun port => port.num == node.pin)).getLast?
      (acc.1 ++ [updated], lastMatch.orElse (fun _ => acc.2))
    else (acc.1 ++ [component], acc.2)) ([], none)

/-- Build the connection list of a net in node order (one `Connection`
appended per node, lines 460-468), threading the instance-list updates. -/
def buildConnections (sname : String) : List Component → List Node →
    List Component × List Connection
  | insts, [] => (insts, [])
  | insts, node :: nodes =>
    let r := connectNode sname insts node
    let rest := buildConnections sname r.1 nodes
    (rest.1, { ref := node.ref, pin := node.pin, port := r.2 } :: rest.2)

/-- The signal-type pass (lines 470-476): the first connection with a
resolved port fixes the type; a later disagreement only prints a
warning. -/
def signalType (conns : List Connection) : String :=
  conns.foldl (fun acc conn =>
    match conn.port with
    | some port => if acc = ("") then port.vhdl_type else acc
    | none => acc) ("")

/-- One iteration of the nets loop of `generate_code` (lines 426-478)
over the state (instance list, signal list). -/
def processNet (direct_connects : List (String × String))
    (st : List Component × List Signal) (net : Net) : List Component × List Signal :=
  if pyStartsWith ("unconnected") net.name then
    (net.nodes.foldl applyUnconnNode st.1, st.2)
  else
    let name0 := signalName net
    let nameSkip :=
      match net.nodes.find? (fun node => (dictLookup direct_connects node.ref).isSome) with
      | some node => ((dictLookup direct_connects node.ref).getD name0, true)
      | none => (name0, false)
    let r := buildConnections nameSkip.1 st.1 net.nodes
    let signal : Signal := { name := nameSkip.1, code := net.code,
                             vhdl_type := signalType r.2, connections := r.2 }
    if nameSkip.2 then (r.1, st.2) else (r.1, st.2 ++ [signal])

/-! ### Renderer column alignment (`align_on_pipe`) -/

/-- The line-boundary characters of Python `str.splitlines`. -/
def lineBreakChar (c : Char) : Bool :=
  c == '\n' || c == '\r' || c == '\x0b' || c == '\x0c' ||
  c == '\x1c' || c == '\x1d' || c == '\x1e' || c == '\x85' ||
  c == '\u2028' || c == '\u2029'

/-- Python `doc.splitlines()`: `cur` is the current line accumulated in
reverse; `\r\n` counts as a single boundary; a trailing boundary adds no
empty final line.  Fuel-indexed (fuel `s.length + 1` suffices). -/
def pySplitlinesAux : Nat → List Char → List Char → List (List Char)
  | _, cur, [] => if cur.isEmpty then [] else [cur.reverse]
  | 0, cur, _ => if cur.isEmpty then [] else [cur.reverse]
  | fuel+1, cur, c :: rest =>
    if c = '\r' then
      match rest with
      | '\n' :: rest2 => cur.reverse :: pySplitlinesAux fuel [] rest2
      | _ => cur.reverse :: pySplitlinesAux fuel [] rest
    else if lineBreakChar c then cur.reverse :: pySplitlinesAux fuel [] rest
    else pySplitlinesAux fuel (c :: cur) rest

/-- Python `doc.splitlines()`. -/
def pySplitlines (s : List Char) : List (List Char) :=
  pySplitlinesAux (s.length + 1) [] s

/-- The segmentation loop of `align_on_pipe` (lines 287-299): group
consecutive lines with the same `split('|')` count; the tracked count
starts at `0`, so the first line always opens a new segment. -/
def segGo : Nat → List (List Char) → List (List (List Char)) → List (List Char) →
    List (List (List Char))
  | _, cur, segs, [] => if cur.isEmpty then segs else segs ++ [cur]
  | n, cur, segs, line :: rest =>
    let m := (splitChar '|' line).length
    if m ≠ n then segGo m [line] (if cur.isEmpty then segs else segs ++ [cur]) rest
    else segGo n (cur ++ [line]) segs rest

/-- Pointwise column-width maximum (the inner loop of lines 304-309; the
`[]`-vs-cons fallbacks are unreachable because every line of a segment
splits into the same number of columns). -/
def updMax : List Nat → List (List Char) → List Nat
  | ms, [] => ms
  | [], _ :: _ => []
  | m :: ms, p :: ps => (max m p.length) :: updMax ms ps

/-- Maximum width of each column of a segment, seeded by
`[0] * len(seg[0].split('|'))`. -/
def segMax (seg : List (List Char)) : List Nat :=
  seg.foldl (fun ms line => updMax ms (splitChar '|' line))
    (List.replicate (splitChar '|' (seg.headD [])).length 0)

/-- Python `f-string` left-justification `{s:<{w}}` (never truncates). -/
def ljust (p : List Char) (w : Nat) : List Char :=
  p ++ List.replicate (w - p.length) ' '

/-- One output line (lines 311-317): each column left-justified to the
segment maximum and concatenated with nothing in between — the `|`
delimiters are gone; iteration is bounded by the width list, dropping
any extra columns (unreachable within a segment). -/
def renderLine : List Nat → List (List Char) → List Char
  | [], _ => []
  | _ :: _, [] => []
  | m :: ms, p :: ps => ljust p m ++ renderLine ms ps

/-- Render a full segment against its column maxima. -/
def renderSeg (seg : List (List Char)) : List (List Char) :=
  seg.map (fun line => renderLine (segMax seg) (splitChar '|' line))

/-- `align_on_pipe` of `netlist_to_vhdl.py`: segment the document into
runs of equal pipe-count, pad every column of a run to the run maximum,
join the realigned lines with `\n`. -/
def align_on_pipe (doc : String) : String :=
  let segs := segGo 0 [] [] (pySplitlines doc.data)
  String.mk (List.intercalate ['\n'] (segs.flatMap renderSeg))

/-- A well-formed range bound as written inside a `name(H:L)` hint: a
nonempty string that does not collide with the other hint syntax — no
`:` (the range separator), no space (the named-type form), no newline
(the regex `.`), and not starting with `u`/`s` (the numeric-family
prefixes).  Every arithmetic bound (decimal numerals, `DW-1`, …)
satisfies this. -/
def goodBound (s : String) : Bool :=
  !s.data.isEmpty &&
  (s.data.headD ' ' != 'u') && (s.data.headD ' ' != 's') &&
  s.data.all (fun d => !(d == ':') && !(d == ' ') && !(d == '\n'))

/-- The `length` produced by the range path of `update_from_name`:
`high - low + 1` when both bounds are concrete, else the deferred
`high ++ "-" ++ low` f-string. -/
def rangeLength (hi lo : Sum Int String) : String :=
  match hi, lo with
  | Sum.inl a, Sum.inl b => str_of_int (a - b + 1)
  | _, _ => str_of_val hi ++ "-" ++ str_of_val lo

/-! ## Theorems -/

/-- If every integer-typed generic in the list has an `int()`-parseable
value, the substitution loop of `parse_portsize_part` never takes its
early-return branch. -/
lemma runSubst_no_early (gens : List Generic) (s : String)
    (h : ∀ g ∈ gens, g.typestr = ("integer") → ∃ v, pyInt g.value = some v) :
    (runSubst gens s).1 = false := by
  induction gens generalizing s with
  | nil => rfl
  | cons g gs ih =>
    have hg := h g (List.mem_cons_self g gs)
    have hgs : ∀ g' ∈ gs, g'.typestr = ("integer") → ∃ v, pyInt g'.value = some v :=
      fun g' hg' => h g' (List.mem_cons_of_mem g hg')
    unfold runSubst
    by_cases ht : g.typestr = ("integer")
    · obtain ⟨v, hv⟩ := hg ht
      simp only [ht, ne_eq, not_true_eq_false, if_false, ite_not]
      by_cases hin : pyInStr g.name s
      · simp [hin, hv, ih _ hgs]
      · simp [hin, ih _ hgs]
    · simp [ht, ih _ hgs]

/-- C1: for every width-bound expression and every generic list whose
integer-typed generics all carry `int()`-parseable values, if the
expression obtained by running the substitution loop contains only
characters in `[0-9+-*/()]` and evaluates (as a Python arithmetic
expression, modelled exactly over `ℚ`) to the value `q`, then
`parse_portsize_part` returns the integer `int(q)` obtained from that
evaluation. -/
theorem parse_portsize_resolves (s : String) (gens : List Generic)
    (hvals : ∀ g ∈ gens, g.typestr = ("integer") → ∃ v, pyInt g.value = some v)
    (hnum : hasNonArith (runSubst gens s).2 = false)
    (q : ℚ) (heval : pyEvalQ (runSubst gens s).2 = some q) :
    parse_portsize_part s gens = some (Sum.inl (pyIntOfRat q)) := by
  have h1 := runSubst_no_early gens s hvals
  unfold parse_portsize_part
  rcases hrs : runSubst gens s with ⟨b, s'⟩
  rw [hrs] at h1 hnum heval
  subst h1
  simp [hnum, heval]

/-- Witness for C1: the expression `DW-1` with the integer generic
`DW = 8` resolves to the integer `7`. -/
theorem parse_portsize_resolves_witness :
    parse_portsize_part ("DW-1") [{ name := "DW", typestr := "integer", value := "8" }] =
      some (Sum.inl 7) := by
  have h := parse_portsize_resolves ("DW-1")
    [{ name := "DW", typestr := "integer", value := "8" }]
    (fun g hg _ => by
      simp only [List.mem_singleton] at hg
      exact ⟨8, by subst hg; decide⟩)
    (by decide) 7 (by decide)
  simpa using h

/-- C6: whenever the expression produced by the substitution loop still
contains a character outside `[0-9+-*/()]`, `parse_portsize_part`
returns that (possibly partially substituted) string — no exception is
raised; deferral is a valid terminal state. -/
theorem parse_portsize_defers (s : String) (gens : List Generic)
    (h : hasNonArith (runSubst gens s).2 = true) :
    parse_portsize_part s gens = some (Sum.inr (runSubst gens s).2) := by
  unfold parse_portsize_part
  rcases hrs : runSubst gens s with ⟨b, s'⟩
  rw [hrs] at h
  cases b
  · simp [h]
  · simp

/-- Witness for C6: the expression `DW+1` with no generics in scope is
returned unresolved as the string `DW+1`. -/
theorem parse_portsize_defers_witness :
    parse_portsize_part ("DW+1") [] = some (Sum.inr ("DW+1")) := by
  have h := parse_portsize_defers ("DW+1") [] (by decide)
  simpa using h

/-- A digit character built from a value below ten reads back to that
value. -/
lemma charDigitVal_digitChar10 {d : Nat} (h : d < 10) :
    charDigitVal (digitChar10 d) = d := by
  interval_cases d <;> rfl

/-- `digitChar10` of a value below ten is a decimal digit character. -/
lemma digitChar10_isDigit {d : Nat} (h : d < 10) : (digitChar10 d).isDigit = true := by
  interval_cases d <;> rfl

/-- Reading the reversed-digit expansion back gives the number. -/
lemma natToRevDigitsAux_val : ∀ fuel n, n ≤ fuel + 1 →
    revDigitsVal (natToRevDigitsAux fuel n) = n := by
  intro fuel
  induction fuel with
  | zero =>
    intro n hn
    have h10 : n < 10 := by omega
    simp [natToRevDigitsAux, revDigitsVal, Nat.mod_eq_of_lt h10,
      charDigitVal_digitChar10 h10]
  | succ fuel ih =>
    intro n hn
    by_cases h10 : n < 10
    · simp [natToRevDigitsAux, h10, revDigitsVal, charDigitVal_digitChar10 h10]
    · have hpos : 0 < n := by omega
      have hlt : n / 10 < n := Nat.div_lt_self hpos (by omega)
      have hfuel : n / 10 ≤ fuel + 1 := by omega
      simp [natToRevDigitsAux, h10, revDigitsVal, ih _ hfuel,
        charDigitVal_digitChar10 (Nat.mod_lt n (by omega))]
      exact Nat.mod_add_div n 10

/-- Every character of the reversed-digit expansion is a digit. -/
lemma natToRevDigitsAux_digits : ∀ fuel n c, c ∈ natToRevDigitsAux fuel n →
    c.isDigit = true := by
  intro fuel
  induction fuel with
  | zero =>
    intro n c hc
    simp [natToRevDigitsAux] at hc
    subst hc
    exact digitChar10_isDigit (Nat.mod_lt n (by omega))
  | succ fuel ih =>
    intro n c hc
    by_cases h10 : n < 10
    · simp [natToRevDigitsAux, h10] at hc
      subst hc
      exact digitChar10_isDigit h10
    · simp [natToRevDigitsAux, h10] at hc
      rcases hc with hc | hc
      · subst hc
        exact digitChar10_isDigit (Nat.mod_lt n (by omega))
      · exact ih _ _ hc

/-- `pyStrNat` is injective (two numbers with the same decimal string are
equal). -/
lemma pyStrNat_inj {n m : Nat} (h : pyStrNat n = pyStrNat m) : n = m := by
  have hn := natToRevDigitsAux_val n n (by omega)
  have hm := natToRevDigitsAux_val m m (by omega)
  have heq : natToRevDigitsAux n n = natToRevDigitsAux m m := by
    have := congrArg List.reverse h
    simpa [pyStrNat] using this
  rw [← hn, ← hm, heq]

/-- The decimal string of a natural number is nonempty. -/
lemma pyStrNat_ne_nil (n : Nat) : pyStrNat n ≠ [] := by
  unfold pyStrNat
  simp only [ne_eq, List.reverse_eq_nil_iff]
  cases n with
  | zero => simp [natToRevDigitsAux]
  | succ m =>
    by_cases h10 : m + 1 < 10 <;> simp [natToRevDigitsAux, h10]

/-- Every character of `pyStrNat` is a digit. -/
lemma pyStrNat_digits {n : Nat} {c : Char} (h : c ∈ pyStrNat n) : c.isDigit = true := by
  unfold pyStrNat at h
  exact natToRevDigitsAux_digits n n c (List.mem_reverse.mp h)

/-- `str_of_int` produces a nonempty string. -/
lemma str_of_int_ne_nil (i : Int) : (str_of_int i).data ≠ [] := by
  unfold str_of_int
  split
  · simp
  · exact pyStrNat_ne_nil _

/-- `str_of_int` is injective. -/
lemma str_of_int_inj {i j : Int} (h : str_of_int i = str_of_int j) : i = j := by
  unfold str_of_int at h
  split at h <;> split at h
  · have hd : ('-' :: pyStrNat i.natAbs) = ('-' :: pyStrNat j.natAbs) :=
      congrArg String.data h
    have := pyStrNat_inj (List.cons.injEq .. ▸ hd).2
    omega
  · exfalso
    have hd : ('-' :: pyStrNat i.natAbs) = pyStrNat j.natAbs :=
      congrArg String.data h
    have hm : '-' ∈ pyStrNat j.natAbs := hd ▸ List.mem_cons_self _ _
    have := pyStrNat_digits hm
    exact absurd this (by decide)
  · exfalso
    have hd : pyStrNat i.natAbs = ('-' :: pyStrNat j.natAbs) :=
      congrArg String.data h
    have hm : '-' ∈ pyStrNat i.natAbs := by
      rw [hd]
      exact List.mem_cons_self _ _
    have := pyStrNat_digits hm
    exact absurd this (by decide)
  · have hd : pyStrNat i.natAbs = pyStrNat j.natAbs := congrArg String.data h
    have := pyStrNat_inj hd
    omega

/-- After the first character, `str_of_int` contains only digits. -/
lemma str_of_int_tail_digits {i : Int} {c : Char} (h : c ∈ (str_of_int i).data.tail) :
    c.isDigit = true := by
  unfold str_of_int at h
  split at h
  · exact pyStrNat_digits (by simpa using h)
  · exact pyStrNat_digits (List.mem_of_mem_tail h)

/-- A canonical integer string is never of the form `A ++ "-" ++ B` with
`A` nonempty: its minus sign can only be the leading character. -/
lemma str_of_int_no_inner_dash (i : Int) (A B : List Char) (hA : A ≠ []) :
    (str_of_int i).data ≠ A ++ '-' :: B := by
  intro h
  rcases A with _ | ⟨a, A'⟩
  · exact hA rfl
  · have hmem : '-' ∈ (str_of_int i).data.tail := by
      rw [h]
      simp
    have := str_of_int_tail_digits hmem
    exact absurd this (by decide)

/-- C10: a trailing `(b)` or `(integer)` hint sets the boolean
(width 1) resp. integer (high 31, low 0, length 32) type but leaves the
port's `name` untouched — the hint is only stripped on the range paths. -/
theorem hint_b_integer_keeps_name (p : Port) (gl : List Generic) (ev : Bool) (n0 : String) :
    (matchNameHint p.name = some (n0, ("b")) →
      p.update_from_name gl ev =
        some { p with vhdl_type := "boolean", high := "0", low := "0", length := "1" }) ∧
    (matchNameHint p.name = some (n0, ("integer")) →
      p.update_from_name gl ev =
        some { p with vhdl_type := "integer", high := "31", low := "0", length := "32" }) := by
  constructor <;> intro h <;> simp [Port.update_from_name, h]

/-- Witness for C10: `foo(b)` keeps its full name with boolean type;
`g(integer)` keeps its full name with integer type. -/
theorem hint_b_integer_keeps_name_witness :
    (({ name := "foo(b)" } : Port).update_from_name [] true =
      some { name := "foo(b)", vhdl_type := "boolean", high := "0", low := "0", length := "1" }) ∧
    (({ name := "g(integer)" } : Port).update_from_name [] true =
      some { name := "g(integer)", vhdl_type := "integer", high := "31", low := "0", length := "32" }) :=
  ⟨(hint_b_integer_keeps_name { name := "foo(b)" } [] true ("foo")).1 (by rfl),
   (hint_b_integer_keeps_name { name := "g(integer)" } [] true ("g")).2 (by rfl)⟩

/-- C8: on the two-line run `a|bb|c` / `aaa|b|cc` the three columns are
left-justified to the run maxima 3, 2 and 2 and concatenated. -/
theorem align_on_pipe_pads_columns :
    align_on_pipe ("a|bb|c\naaa|b|cc") =
      String.mk (ljust ("a").data 3 ++ ljust ("bb").data 2 ++ ljust ("c").data 2) ++ "\n" ++
      String.mk (ljust ("aaa").data 3 ++ ljust ("b").data 2 ++ ljust ("cc").data 2) := by
  decide

/-- `splitChar` never returns the empty list of parts. -/
lemma splitChar_ne_nil (sep : Char) (l : List Char) : splitChar sep l ≠ [] := by
  cases l with
  | nil => simp [splitChar]
  | cons c cs =>
    simp only [splitChar]
    split
    · simp
    · split <;> simp

/-- No part produced by `splitChar` contains the separator. -/
lemma splitChar_parts_no_sep (sep : Char) :
    ∀ (l : List Char) (p : List Char), p ∈ splitChar sep l → sep ∉ p := by
  intro l
  induction l with
  | nil =>
    intro p hp
    simp [splitChar] at hp
    subst hp
    simp
  | cons c cs ih =>
    intro p hp
    simp only [splitChar] at hp
    by_cases hc : c = sep
    · rw [if_pos hc] at hp
      rcases List.mem_cons.mp hp with h | h
      · subst h; simp
      · exact ih p h
    · rw [if_neg hc] at hp
      rcases hq : splitChar sep cs with _ | ⟨q, qs⟩
      · exact absurd hq (splitChar_ne_nil sep cs)
      · rw [hq] at hp
        rcases List.mem_cons.mp hp with h | h
        · subst h
          intro hmem
          rcases List.mem_cons.mp hmem with h | h
          · exact hc h.symm
          · exact ih q (hq ▸ List.mem_cons_self q qs) h
        · exact ih p (hq ▸ List.mem_cons_of_mem q h)

/-- Characters of a rendered line come from the columns or are padding
spaces. -/
lemma renderLine_no_pipe : ∀ (ms : List Nat) (ps : List (List Char)),
    (∀ p ∈ ps, '|' ∉ p) → ∀ c ∈ renderLine ms ps, c ≠ '|' := by
  intro ms
  induction ms with
  | nil =>
    intro ps _ c hc
    simp [renderLine] at hc
  | cons m ms ih =>
    intro ps hps c hc
    cases ps with
    | nil => simp [renderLine] at hc
    | cons p ps' =>
      simp only [renderLine, ljust, List.append_assoc, List.mem_append] at hc
      rcases hc with hc | hc | hc
      · intro hc'
        subst hc'
        exact hps p (List.mem_cons_self _ _) hc
      · intro hc'
        subst hc'
        have := List.eq_of_mem_replicate hc
        exact absurd this (by decide)
      · exact ih ps' (fun q hq => hps q (List.mem_cons_of_mem _ hq)) c hc

/-- No character of an intercalation by `"\n"` of pipe-free lines is a
pipe. -/
lemma intercalate_no_pipe : ∀ (xss : List (List Char)),
    (∀ xs ∈ xss, ∀ c ∈ xs, c ≠ '|') →
    ∀ c ∈ List.intercalate ['\n'] xss, c ≠ '|' := by
  intro xss
  induction xss with
  | nil =>
    intro _ c hc
    simp [List.intercalate] at hc
  | cons a t ih =>
    intro h c hc
    cases t with
    | nil =>
      simp [List.intercalate] at hc
      exact h a (List.mem_cons_self _ _) c hc
    | cons b t' =>
      rw [List.intercalate] at hc
      simp only [List.intersperse_cons₂, List.flatten_cons, List.mem_append] at hc
      rcases hc with hc | hc | hc
      · exact h a (List.mem_cons_self _ _) c hc
      · have : c = '\n' := by simpa using hc
        subst this
        decide
      · have : c ∈ List.intercalate ['\n'] (b :: t') := by
          rw [List.intercalate]
          simpa using hc
        exact ih (fun xs hxs => h xs (List.mem_cons_of_mem _ hxs)) c this

/-- C9: `align_on_pipe` deletes the pipe delimiters — no character of
its output is `|`, for any input document. -/
theorem align_on_pipe_removes_pipes (doc : String) :
    (align_on_pipe doc).data.all (fun c => !(c == '|')) = true := by
  rw [List.all_eq_true]
  intro c hc
  simp only [Bool.not_eq_true', beq_eq_false_iff_ne, ne_eq]
  have hdata : (align_on_pipe doc).data =
      List.intercalate ['\n']
        ((segGo 0 [] [] (pySplitlines doc.data)).flatMap renderSeg) := rfl
  rw [hdata] at hc
  refine intercalate_no_pipe _ ?_ c hc
  intro xs hxs d hd
  rcases List.mem_flatMap.mp hxs with ⟨seg, _, hseg⟩
  rcases List.mem_map.mp hseg with ⟨line, _, hline⟩
  subst hline
  refine renderLine_no_pipe _ _ ?_ d hd
  intro p hp
  exact splitChar_parts_no_sep '|' line p hp

/-- `buildConnections` makes exactly one connection per node, matching
port or not. -/
lemma buildConnections_length (sname : String) :
    ∀ (nodes : List Node) (insts : List Component),
    (buildConnections sname insts nodes).2.length = nodes.length := by
  intro nodes
  induction nodes with
  | nil => intro insts; rfl
  | cons node nodes ih =>
    intro insts
    simp [buildConnections, ih]

/-- C3: a net that is not `unconnected` and touches no direct-connect
reference appends exactly one `Signal`, whose connection list has one
entry per node of the net (nodes that resolve to no instance port
included). -/
theorem net_produces_one_signal (dc : List (String × String)) (insts : List Component)
    (sigs : List Signal) (net : Net)
    (h1 : pyStartsWith ("unconnected") net.name = false)
    (h2 : ∀ node ∈ net.nodes, dictLookup dc node.ref = none) :
    ∃ sig, (processNet dc (insts, sigs) net).2 = sigs ++ [sig] ∧
      sig.connections.length = net.nodes.length := by
  have hf : net.nodes.find? (fun node => (dictLookup dc node.ref).isSome) = none := by
    rw [List.find?_eq_none]
    intro node hnode
    simp [h2 node hnode]
  refine ⟨{ name := signalName net, code := net.code,
            vhdl_type := signalType (buildConnections (signalName net) insts net.nodes).2,
            connections := (buildConnections (signalName net) insts net.nodes).2 }, ?_, ?_⟩
  · simp [processNet, h1, hf]
  · exact buildConnections_length (signalName net) net.nodes insts

/-- Witness for C3: a two-node net (one resolvable node, one dangling)
yields exactly one signal with two connections. -/
theorem net_produces_one_signal_witness :
    ∃ sig,
      (processNet []
        ([{ instance_name := "U1",
            ports := [{ name := "a", num := "3", dirstr := "in", vhdl_type := "std_logic" }] }],
         [])
        { code := "7", name := "/mynet",
          nodes := [{ ref := "U1", pin := "3" }, { ref := "U9", pin := "1" }] }).2 =
        [] ++ [sig] ∧
      sig.connections.length =
        ({ code := "7", name := "/mynet",
           nodes := [{ ref := "U1", pin := "3" }, { ref := "U9", pin := "1" }] } : Net).nodes.length := by
  refine net_produces_one_signal [] _ [] _ (by decide) ?_
  intro node hnode
  fin_cases hnode <;> rfl

/-- The pointwise update an `unconnected` net performs on every instance
port it matches. -/
def unconnUpdate (nodes : List Node) (component : Component) : Component :=
  { component with ports := component.ports.map (fun port =>
      if nodes.any (fun node => component.instance_name == node.ref && port.num == node.pin) then
        { port with target := unconnectedTarget port }
      else port) }

/-- Folding the per-node update over a node list is the same as the
single pointwise update against the whole list. -/
lemma unconnUpdate_nil (c : Component) : unconnUpdate [] c = c := by
  simp [unconnUpdate]

/-- Folding the per-node update over a node list is the same as the
single pointwise update against the whole list. -/
lemma foldl_applyUnconnNode (nodes : List Node) :
    ∀ insts : List Component,
    nodes.foldl applyUnconnNode insts = insts.map (unconnUpdate nodes) := by
  induction nodes with
  | nil =>
    intro insts
    simp only [List.foldl_nil]
    exact ((List.map_congr_left (fun c _ => unconnUpdate_nil c)).trans (List.map_id insts)).symm
  | cons n ns ih =>
    intro insts
    rw [List.foldl_cons, ih, applyUnconnNode, List.map_map]
    refine List.map_congr_left ?_
    intro c _
    by_cases hc : (c.instance_name == n.ref) = true
    · simp only [Function.comp, hc, if_true, unconnUpdate, List.map_map,
        Component.mk.injEq, true_and, and_true]
      refine List.map_congr_left ?_
      intro p _
      simp only [Function.comp]
      by_cases hp : (p.num == n.pin) = true
      · simp only [hp, if_true]
        have hu : unconnectedTarget { p with target := unconnectedTarget p } =
            unconnectedTarget p := rfl
        by_cases ha : (ns.any fun node =>
            c.instance_name == node.ref && p.num == node.pin) = true
        · simp [List.any_cons, hc, hp, ha, hu]
        · simp [List.any_cons, hc, hp, ha, hu]
      · have hpf : (p.num == n.pin) = false := by simpa using hp
        simp [List.any_cons, hc, hpf]
    · have hcf : (c.instance_name == n.ref) = false := by simpa using hc
      simp only [Function.comp, hcf, Bool.false_eq_true, if_false, unconnUpdate,
        Component.mk.injEq, true_and, and_true]
      refine List.map_congr_left ?_
      intro p _
      simp [List.any_cons, hcf]

/-- C4: on an `unconnected` net, every matched instance port has its
target set to the type-appropriate literal (`false` for boolean inputs,
`'0'` for `std_logic` inputs, the aggregate zero for other inputs,
`open` for everything not an input — in particular outputs and inouts),
every other port is untouched, and no `Signal` is appended. -/
theorem unconnected_net_targets (dc : List (String × String)) (insts : List Component)
    (sigs : List Signal) (net : Net)
    (h : pyStartsWith ("unconnected") net.name = true) :
    processNet dc (insts, sigs) net = (insts.map (unconnUpdate net.nodes), sigs) := by
  simp [processNet, h, foldl_applyUnconnNode]

/-- Witness for C4: a net named `unconnected-(NET1)` zeroes a boolean
input, opens an output, leaves an unmatched port alone, and appends no
signal. -/
theorem unconnected_net_targets_witness :
    processNet []
      ([{ instance_name := "U1",
          ports := [{ name := "a", num := "3", dirstr := "in", vhdl_type := "boolean" },
                    { name := "b", num := "4", dirstr := "out" },
                    { name := "c", num := "5", dirstr := "in" }] }],
       [])
      { code := "9", name := "unconnected-(NET1)",
        nodes := [{ ref := "U1", pin := "3" }, { ref := "U1", pin := "4" }] } =
    ([{ instance_name := "U1",
        ports := [{ name := "a", num := "3", dirstr := "in", vhdl_type := "boolean" },
                  { name := "b", num := "4", dirstr := "out" },
                  { name := "c", num := "5", dirstr := "in" }] }].map
       (unconnUpdate [{ ref := "U1", pin := "3" }, { ref := "U1", pin := "4" }]),
     []) :=
  unconnected_net_targets [] _ [] _ (by rfl)

/-- With `do_eval = False`, `Port.update_from_name` never raises; the
result keeps the port's direction and `typestr`, and keeps the name
whenever there is no parenthesized hint to strip. -/
lemma update_from_name_false_spec (p : Port) (gl : List Generic) :
    ∃ q, p.update_from_name gl false = some q ∧ q.dirstr = p.dirstr ∧
      q.typestr = p.typestr ∧ (matchNameHint p.name = none → q.name = p.name) := by
  cases hm : matchNameHint p.name with
  | none =>
    refine ⟨{ p with vhdl_type := "std_logic", high := "0", low := "0", length := "1" },
      ?_, rfl, rfl, fun _ => rfl⟩
    unfold Port.update_from_name
    rw [hm]
  | some pm =>
    obtain ⟨n0, hint⟩ := pm
    by_cases hb : hint = ("b")
    · subst hb
      refine ⟨{ p with vhdl_type := "boolean", high := "0", low := "0", length := "1" },
        ?_, rfl, rfl, fun hn => by simp [hm] at hn⟩
      unfold Port.update_from_name
      rw [hm]
      simp
    · by_cases hi : hint = ("integer")
      · subst hi
        refine ⟨{ p with vhdl_type := "integer", high := "31", low := "0", length := "32" },
          ?_, rfl, rfl, fun hn => by simp [hm] at hn⟩
        unfold Port.update_from_name
        rw [hm]
        simp [hb]
      · rcases hsp : splitChar ':' (hintDispatch hint).2.data with _ | ⟨h1, t⟩
        · exact absurd hsp (splitChar_ne_nil _ _)
        · cases t with
          | nil =>
            refine ⟨{ p with
                      name := n0
                      length := str_of_val (Sum.inr (String.mk h1)) ++ "-" ++
                        str_of_val (Sum.inl 0)
                      high := str_of_val (Sum.inr (String.mk h1))
                      low := str_of_val (Sum.inl 0)
                      vhdl_type := (hintDispatch hint).1 ++ "(" ++
                        str_of_val (Sum.inr (String.mk h1)) ++ " downto " ++
                        str_of_val (Sum.inl 0) ++ ")" },
              ?_, rfl, rfl, fun hn => by simp [hm] at hn⟩
            unfold Port.update_from_name
            rw [hm]
            simp [hb, hi, hsp]
          | cons l rest =>
            refine ⟨{ p with
                      name := n0
                      length := str_of_val (Sum.inr (String.mk h1)) ++ "-" ++
                        str_of_val (Sum.inr (String.mk l))
                      high := str_of_val (Sum.inr (String.mk h1))
                      low := str_of_val (Sum.inr (String.mk l))
                      vhdl_type := (hintDispatch hint).1 ++ "(" ++
                        str_of_val (Sum.inr (String.mk h1)) ++ " downto " ++
                        str_of_val (Sum.inr (String.mk l)) ++ ")" },
              ?_, rfl, rfl, fun hn => by simp [hm] at hn⟩
            unfold Port.update_from_name
            rw [hm]
            simp [hb, hi, hsp]

/-- Counterexample to C5 as stated: an `IN` pseudo-part with value
`foo(7:0)` and a `TYPE` property `boolean` produces a port named `foo`
(the value minus its hint, not the value) whose resolved type is
`std_logic_vector(7 downto 0)` (decoded from the name hint, not the
`TYPE` property, which only lands in `typestr`). -/
theorem boundary_port_name_type_cx :
    (processComp [] [] {}
        { ref := "P1", value := "foo(7:0)", libsource := { part := "IN" },
          properties := [{ name := "TYPE", value := "boolean" }] }).map
      (fun st => st.port_list.map (fun p => (p.name, p.vhdl_type, p.typestr))) =
      some [(("foo" : String), ("std_logic_vector(7 downto 0)" : String), ("boolean" : String))] ∧
    ("foo" : String) ≠ ("foo(7:0)") ∧
    ("std_logic_vector(7 downto 0)" : String) ≠ ("boolean") :=
  ⟨by decide, by decide, by decide⟩

/-- C5 amended: an `IN`/`OUT`/`INOUT` component adds no `Instance`;
it appends exactly one `Port` built from name = the component's value,
direction = the lowercased part name, `typestr` = the `TYPE` property
(defaulting to the single-bit `std_logic`), then decoded by
`update_from_name` (which keeps the name exactly when the value carries
no parenthesized hint, and derives the resolved vhdl type from the name
hint rather than from `TYPE`); the port is recorded in the
direct-connect table under the component's reference. -/
theorem boundary_port_amended (gl : List Generic) (cl : List Component)
    (st : BuildSt) (comp : Comp)
    (h : (["IN", "OUT", "INOUT"] : List String).contains comp.libsource.part = true) :
    ∃ port,
      Port.update_from_name
        { name := comp.value, dirstr := pyLower comp.libsource.part,
          typestr := find_property comp.properties ("TYPE") ("std_logic") } gl false =
        some port ∧
      processComp gl cl st comp =
        some { st with port_list := st.port_list ++ [port],
                       direct_connects := dictInsert st.direct_connects comp.ref port.name } ∧
      port.dirstr = pyLower comp.libsource.part ∧
      port.typestr = find_property comp.properties ("TYPE") ("std_logic") ∧
      (matchNameHint comp.value = none → port.name = comp.value) := by
  obtain ⟨q, hq, hdir, htype, hname⟩ := update_from_name_false_spec
    { name := comp.value, dirstr := pyLower comp.libsource.part,
      typestr := find_property comp.properties ("TYPE") ("std_logic") } gl
  refine ⟨q, hq, ?_, hdir, htype, hname⟩
  have h3 : comp.libsource.part = ("IN") ∨ comp.libsource.part = ("OUT") ∨
      comp.libsource.part = ("INOUT") := by
    simpa using h
  unfold processComp
  rcases h3 with h3 | h3 | h3 <;> rw [h3] at hq ⊢ <;> simp [hq]

/-- Witness for the amended C5: an `OUT` pseudo-part with plain value
`clk` becomes the port `clk : out std_logic` and a direct-connect entry. -/
theorem boundary_port_amended_witness :
    ∃ port,
      Port.update_from_name
        { name := ("clk" : String), dirstr := pyLower ("OUT"),
          typestr := find_property [] ("TYPE") ("std_logic") } [] false =
        some port ∧
      processComp [] [] {}
          { ref := "P2", value := "clk", libsource := { part := "OUT" } } =
        some { ({} : BuildSt) with
               port_list := ({} : BuildSt).port_list ++ [port]
               direct_connects := dictInsert ({} : BuildSt).direct_connects ("P2") port.name } ∧
      port.dirstr = pyLower ("OUT") ∧
      port.typestr = find_property [] ("TYPE") ("std_logic") ∧
      (matchNameHint ("clk") = none → port.name = ("clk" : String)) :=
  boundary_port_amended [] [] {}
    { ref := "P2", value := "clk", libsource := { part := "OUT" } } (by rfl)

/-- Counterexample to C7 as stated: decoding `x(0:1)` (low bound above
the high bound) resolves `length` to the canonical decimal of `0` — a
concrete integer that is not strictly positive. -/
theorem port_length_zero_cx :
    (({ name := "x(0:1)" } : Port).update_from_name [] true).map
        (fun p => (p.length, p.high, p.low)) =
      some ((str_of_int 0, str_of_int 0, str_of_int 1)) ∧
    ¬(0 < (0 : Int)) :=
  ⟨by decide, by decide⟩

/-- A canonical equality on literals transfers through `str_of_int`
injectivity (helper for the amended C7). -/
lemma eq_of_str_of_int_eq_lit {n k : Int} (h : str_of_int k = str_of_int n) : n = k :=
  (str_of_int_inj h).symm

/-- C7 amended: after `Port.update_from_name` (any name, any generics,
either `do_eval`), whenever `length`, `high` and `low` are all canonical
integer strings and the decoded high bound is at least the low bound,
the concrete length is strictly positive.  (The code stores
`high - low + 1`, so without `low ≤ high` the length can resolve to zero
or below, as the counterexample `x(0:1)` shows; on the deferred path the
length contains an inner `-` after a nonempty bound and never reads as a
canonical integer.) -/
theorem port_length_positive (p : Port) (gl : List Generic) (ev : Bool) (p' : Port)
    (hup : p.update_from_name gl ev = some p')
    (n H L : Int)
    (hn : p'.length = str_of_int n)
    (hh : p'.high = str_of_int H)
    (hl : p'.low = str_of_int L)
    (hHL : L ≤ H) : 0 < n := by
  unfold Port.update_from_name at hup
  cases hm : matchNameHint p.name with
  | none =>
    rw [hm] at hup
    obtain rfl := Option.some.inj hup
    have h1 : str_of_int n = str_of_int 1 := by
      rw [← hn]
      rfl
    have := str_of_int_inj h1
    omega
  | some pm =>
    obtain ⟨n0, hint⟩ := pm
    rw [hm] at hup
    dsimp only at hup
    by_cases hb : hint = ("b")
    · rw [if_pos hb] at hup
      obtain rfl := Option.some.inj hup
      have h1 : str_of_int n = str_of_int 1 := by
        rw [← hn]
        rfl
      have := str_of_int_inj h1
      omega
    · rw [if_neg hb] at hup
      by_cases hi : hint = ("integer")
      · rw [if_pos hi] at hup
        obtain rfl := Option.some.inj hup
        have h1 : str_of_int n = str_of_int 32 := by
          rw [← hn]
          rfl
        have := str_of_int_inj h1
        omega
      · rw [if_neg hi] at hup
        rcases hsp : splitChar ':' (hintDispatch hint).2.data with _ | ⟨h1, t⟩
        · rw [hsp] at hup
          dsimp only at hup
          cases hup
        · cases t with
          | nil =>
            rw [hsp] at hup
            dsimp only at hup
            cases ev
            · simp only [Bool.false_eq_true, if_false, Option.pure_def,
                Option.bind_some, Option.bind_eq_bind] at hup
              obtain rfl := Option.some.inj hup
              simp only [str_of_val] at hn hh hl
              exfalso
              have hdata := congrArg String.data hn
              simp only [String.data_append] at hdata
              have hhd := congrArg String.data hh
              refine str_of_int_no_inner_dash n (String.mk h1).data
                (str_of_int 0).data ?_ ?_
              · rw [hhd]
                exact str_of_int_ne_nil H
              · rw [← hdata, List.append_assoc]
                rfl
            · simp only [if_true] at hup
              cases hup
          | cons l rest =>
            rw [hsp] at hup
            dsimp only at hup
            cases ev
            · simp only [Bool.false_eq_true, if_false, Option.pure_def,
                Option.bind_some, Option.bind_eq_bind] at hup
              obtain rfl := Option.some.inj hup
              simp only [str_of_val] at hn hh hl
              exfalso
              have hdata := congrArg String.data hn
              simp only [String.data_append] at hdata
              have hhd := congrArg String.data hh
              refine str_of_int_no_inner_dash n (String.mk h1).data
                (String.mk l).data ?_ ?_
              · rw [hhd]
                exact str_of_int_ne_nil H
              · rw [← hdata, List.append_assoc]
                rfl
            · simp only [if_true, Option.bind_eq_bind] at hup
              rcases hph : parse_portsize_part (String.mk h1) gl with _ | hi'
              · rw [hph] at hup
                cases hup
              · rw [hph] at hup
                rcases hpl : parse_portsize_part (String.mk l) gl with _ | lo'
                · rw [hpl] at hup
                  cases hup
                · rw [hpl] at hup
                  simp only [Option.bind_some, Option.pure_def] at hup
                  obtain rfl := Option.some.inj hup
                  cases hi' with
                  | inl a =>
                    cases lo' with
                    | inl b =>
                      simp only [str_of_val] at hn hh hl
                      have hA : a = H := str_of_int_inj hh
                      have hB : b = L := str_of_int_inj hl
                      have hN : a - b + 1 = n := str_of_int_inj hn
                      omega
                    | inr s =>
                      simp only [str_of_val] at hn hh hl
                      exfalso
                      have hdata := congrArg String.data hn
                      simp only [String.data_append] at hdata
                      refine str_of_int_no_inner_dash n
                        (str_of_int a).data s.data (str_of_int_ne_nil a) ?_
                      rw [← hdata, List.append_assoc]
                      rfl
                  | inr s =>
                    simp only [str_of_val] at hn hh hl
                    exfalso
                    have hdata := congrArg String.data hn
                    simp only [String.data_append] at hdata
                    have hhd := congrArg String.data hh
                    refine str_of_int_no_inner_dash n
                      s.data (str_of_val lo').data ?_ ?_
                    · rw [hhd]
                      exact str_of_int_ne_nil H
                    · rw [← hdata, List.append_assoc]
                      rfl

/-- Witness for the amended C7: `x(3:1)` has canonical bounds `3 ≥ 1` and
its concrete length `3` is positive. -/
theorem port_length_positive_witness : 0 < (3 : Int) :=
  port_length_positive { name := "x(3:1)" } [] true
    { name := "x", vhdl_type := "std_logic_vector(3 downto 1)",
      high := "3", low := "1", length := "3" }
    (by decide) 3 3 1 (by decide) (by decide) (by decide) (by decide)

/-- Unpack `goodBound` into its propositional content. -/
lemma goodBound_spec {s : String} (h : goodBound s = true) :
    s.data ≠ [] ∧ (∀ c cs, s.data = c :: cs → c ≠ 'u' ∧ c ≠ 's') ∧
    ∀ c ∈ s.data, c ≠ ':' ∧ c ≠ ' ' ∧ c ≠ '\n' := by
  unfold goodBound at h
  simp only [Bool.and_eq_true, Bool.not_eq_true', List.all_eq_true, bne_iff_ne, ne_eq,
    Bool.not_eq_true] at h
  obtain ⟨⟨⟨hne, hu⟩, hs⟩, hall⟩ := h
  refine ⟨?_, ?_, ?_⟩
  · intro he
    rw [he] at hne
    cases hne
  · intro c cs he
    rw [he] at hu hs
    exact ⟨hu, hs⟩
  · intro c hc
    have := hall c hc
    simp only [Bool.and_eq_true, Bool.not_eq_true', beq_eq_false_iff_ne, ne_eq] at this
    exact ⟨this.1.1, this.1.2, this.2⟩

/-- `tailMatch` on a newline-free nonempty body followed by the closing
parenthesis succeeds with that body. -/
lemma tailMatch_append (X : List Char) (hne : X ≠ [])
    (hnl : ∀ c ∈ X, c ≠ '\n') : tailMatch (X ++ [')']) = some X := by
  unfold tailMatch
  have hrev : (X ++ [')']).reverse = ')' :: X.reverse := by simp
  rw [hrev]
  simp only [List.reverse_reverse]
  have h1 : X.isEmpty = false := by
    cases X with
    | nil => exact absurd rfl hne
    | cons c cs => rfl
  have h2 : X.any (fun c => c == '\n') = false := by
    rw [List.any_eq_false]
    intro x hx
    simpa using hnl x hx
  rw [h1, h2]
  rfl

/-- `findHint` behind a leading character that is neither a newline nor
an opening parenthesis just accumulates the character. -/
lemma findHint_cons (c : Char) (l : List Char) (h1 : c ≠ '\n') (h2 : c ≠ '(') :
    findHint (c :: l) = (findHint l).map (fun pm => (c :: pm.1, pm.2)) := by
  simp only [findHint]
  rw [if_neg h1, if_neg h2]

/-- `findHint` at an opening parenthesis whose tail matches succeeds with
an empty name group. -/
lemma findHint_par (rest : List Char) (m : List Char) (h : tailMatch rest = some m) :
    findHint ('(' :: rest) = some ([], m) := by
  simp only [findHint, if_true]
  rw [h, if_neg (show ¬('(' = '\n') by decide)]

/-- The name-hint regex on `x(` ++ H ++ `:` ++ L ++ `)` for newline-free
bounds: group 1 is `x`, group 2 is `H:L`. -/
lemma matchNameHint_range (sH sL : String)
    (hH : ∀ c ∈ sH.data, c ≠ '\n') (hL : ∀ c ∈ sL.data, c ≠ '\n') :
    matchNameHint ("x(" ++ sH ++ ":" ++ sL ++ ")") =
      some (("x" : String), String.mk (sH.data ++ ':' :: sL.data)) := by
  have hd : ("x(" ++ sH ++ ":" ++ sL ++ ")").data =
      'x' :: '(' :: ((sH.data ++ ':' :: sL.data) ++ [')']) := by
    simp [String.data_append]
  have htm : tailMatch ((sH.data ++ ':' :: sL.data) ++ [')']) =
      some (sH.data ++ ':' :: sL.data) := by
    refine tailMatch_append _ ?_ ?_
    · cases hs : sH.data <;> simp [hs]
    · intro c hc
      rcases List.mem_append.mp hc with hc | hc
      · exact hH c hc
      · rcases List.mem_cons.mp hc with rfl | hc
        · decide
        · exact hL c hc
  unfold matchNameHint
  rw [hd, findHint_cons 'x' _ (by decide) (by decide), findHint_par _ _ htm]
  rfl

/-- `pyInAux` with a single-character needle fails on a list avoiding the
character. -/
lemma pyInAux_single_not_mem (c : Char) : ∀ l : List Char, c ∉ l →
    pyInAux [c] l = false := by
  intro l
  induction l with
  | nil => intro _; rfl
  | cons d ds ih =>
    intro h
    have hcd : c ≠ d := fun he => h (he ▸ List.mem_cons_self d ds)
    have : ([c].isPrefixOf (d :: ds)) = false := by
      simp [List.isPrefixOf, beq_eq_false_iff_ne.mpr hcd]
    simp only [pyInAux, this, Bool.false_or]
    exact ih (fun hm => h (List.mem_cons_of_mem d hm))

/-- On a hint `H:L` built from good bounds, the type dispatch selects the
generic bit-vector family and leaves the range text untouched. -/
lemma hintDispatch_range (sH sL : String)
    (hgH : goodBound sH = true) (hgL : goodBound sL = true) :
    hintDispatch (String.mk (sH.data ++ ':' :: sL.data)) =
      (("std_logic_vector" : String), String.mk (sH.data ++ ':' :: sL.data)) := by
  obtain ⟨hneH, hheadH, hchH⟩ := goodBound_spec hgH
  obtain ⟨hneL, hheadL, hchL⟩ := goodBound_spec hgL
  rcases hs : sH.data with _ | ⟨c, cs⟩
  · exact absurd hs hneH
  obtain ⟨hcu, hcs⟩ := hheadH c cs hs
  have hchHcons : ∀ d ∈ c :: cs, d ≠ ':' ∧ d ≠ ' ' ∧ d ≠ '\n' := by
    rw [← hs]
    exact hchH
  have hX : (c :: cs) ++ ':' :: sL.data = c :: (cs ++ ':' :: sL.data) := rfl
  rw [hX]
  have hnospace : pyInStr (" ") (String.mk (c :: (cs ++ ':' :: sL.data))) = false := by
    show pyInAux [' '] (c :: (cs ++ ':' :: sL.data)) = false
    refine pyInAux_single_not_mem ' ' _ ?_
    intro hmem
    rw [← hX] at hmem
    rcases List.mem_append.mp hmem with hm | hm
    · exact (hchHcons ' ' hm).2.1 rfl
    · rcases List.mem_cons.mp hm with he | hm
      · cases he
      · exact (hchL ' ' hm).2.1 rfl
  have huf : (['u', 'f'].isPrefixOf (c :: (cs ++ ':' :: sL.data))) = false := by
    simp [List.isPrefixOf, beq_eq_false_iff_ne.mpr (Ne.symm hcu)]
  have hu : (['u'].isPrefixOf (c :: (cs ++ ':' :: sL.data))) = false := by
    simp [List.isPrefixOf, beq_eq_false_iff_ne.mpr (Ne.symm hcu)]
  have hsf : (['s', 'f'].isPrefixOf (c :: (cs ++ ':' :: sL.data))) = false := by
    simp [List.isPrefixOf, beq_eq_false_iff_ne.mpr (Ne.symm hcs)]
  have hs1 : (['s'].isPrefixOf (c :: (cs ++ ':' :: sL.data))) = false := by
    simp [List.isPrefixOf, beq_eq_false_iff_ne.mpr (Ne.symm hcs)]
  unfold hintDispatch
  dsimp only
  simp only [huf, hu, hsf, hs1, hnospace, Bool.false_eq_true, if_false]

/-- `splitChar` of a separator-free list is that single part. -/
lemma splitChar_not_mem (c : Char) : ∀ l : List Char, c ∉ l →
    splitChar c l = [l] := by
  intro l
  induction l with
  | nil => intro _; rfl
  | cons d ds ih =>
    intro h
    have hdc : ¬d = c := fun he => h (he ▸ List.mem_cons_self d ds)
    have hds := ih (fun hm => h (List.mem_cons_of_mem d hm))
    simp only [splitChar, hdc, if_false, hds]

/-- Splitting `a ++ c :: b` at `c` when neither side contains `c`. -/
lemma splitChar_sandwich (c : Char) : ∀ (a b : List Char), c ∉ a → c ∉ b →
    splitChar c (a ++ c :: b) = [a, b] := by
  intro a
  induction a with
  | nil =>
    intro b _ hb
    simp only [List.nil_append, splitChar, if_true, splitChar_not_mem c b hb]
  | cons d ds ih =>
    intro b ha hb
    have hdc : ¬d = c := fun he => ha (he ▸ List.mem_cons_self d ds)
    have hds := ih b (fun hm => ha (List.mem_cons_of_mem d hm)) hb
    simp only [List.cons_append, splitChar, hdc, if_false, List.append_eq, hds]

/-- C2: decoding `x(H:L)` with an empty generic list, for any
well-formed bound texts `H`, `L` whose evaluation by
`parse_portsize_part` terminates: the name is stripped to `x`, the type
is the generic bit-vector `std_logic_vector(H downto L)`, `high`/`low`
carry the evaluated bounds, and the length is `high − low + 1` when both
bounds evaluate to concrete integers, else the deferred symbolic string
`high ++ "-" ++ low`. -/
theorem decode_range_name (sH sL : String)
    (hgH : goodBound sH = true) (hgL : goodBound sL = true)
    (rH rL : Sum Int String)
    (hH : parse_portsize_part sH [] = some rH)
    (hL : parse_portsize_part sL [] = some rL) :
    ∃ p', ({ name := "x(" ++ sH ++ ":" ++ sL ++ ")" } : Port).update_from_name [] true =
        some p' ∧
      p'.name = "x" ∧
      p'.high = str_of_val rH ∧
      p'.low = str_of_val rL ∧
      p'.vhdl_type = "std_logic_vector(" ++ str_of_val rH ++ " downto " ++ str_of_val rL ++ ")" ∧
      (∀ Hi Lo : Int, rH = Sum.inl Hi → rL = Sum.inl Lo →
        p'.length = str_of_int (Hi - Lo + 1)) ∧
      ((rH.isRight ∨ rL.isRight) → p'.length = str_of_val rH ++ "-" ++ str_of_val rL) := by
  obtain ⟨hneH, hheadH, hchH⟩ := goodBound_spec hgH
  obtain ⟨hneL, hheadL, hchL⟩ := goodBound_spec hgL
  have hnlH : ∀ c ∈ sH.data, c ≠ '\n' := fun c hc => (hchH c hc).2.2
  have hnlL : ∀ c ∈ sL.data, c ≠ '\n' := fun c hc => (hchL c hc).2.2
  have hncH : ':' ∉ sH.data := fun hm => (hchH ':' hm).1 rfl
  have hncL : ':' ∉ sL.data := fun hm => (hchL ':' hm).1 rfl
  have hm := matchNameHint_range sH sL hnlH hnlL
  have hX : ':' ∈ sH.data ++ ':' :: sL.data :=
    List.mem_append.mpr (Or.inr (List.mem_cons_self _ _))
  have hnb : ¬(String.mk (sH.data ++ ':' :: sL.data) = ("b")) := by
    intro he
    have h2 : sH.data ++ ':' :: sL.data = ("b").data := congrArg String.data he
    exact absurd (h2 ▸ hX) (by decide)
  have hni : ¬(String.mk (sH.data ++ ':' :: sL.data) = ("integer")) := by
    intro he
    have h2 : sH.data ++ ':' :: sL.data = ("integer").data := congrArg String.data he
    exact absurd (h2 ▸ hX) (by decide)
  have hdis := hintDispatch_range sH sL hgH hgL
  have hsplit : splitChar ':' (sH.data ++ ':' :: sL.data) =
      [sH.data, sL.data] := splitChar_sandwich ':' sH.data sL.data hncH hncL
  have heq : ({ name := "x(" ++ sH ++ ":" ++ sL ++ ")" } : Port).update_from_name [] true =
      some { name := ("x" : String)
             vhdl_type := "std_logic_vector(" ++ str_of_val rH ++ " downto " ++
               str_of_val rL ++ ")"
             high := str_of_val rH
             low := str_of_val rL
             length := rangeLength rH rL } := by
    unfold Port.update_from_name
    rw [hm]
    dsimp only
    rw [if_neg hnb, if_neg hni, hdis]
    dsimp only
    rw [hsplit]
    dsimp only
    rw [if_pos rfl]
    have hmkH : String.mk sH.data = sH := rfl
    have hmkL : String.mk sL.data = sL := rfl
    rw [hmkH, hmkL, hH, hL]
    rfl
  refine ⟨_, heq, rfl, rfl, rfl, rfl, ?_, ?_⟩
  · intro Hi Lo h1 h2
    subst h1
    subst h2
    rfl
  · intro hr
    cases rH with
    | inl a =>
      cases rL with
      | inl b =>
        exfalso
        rcases hr with hr | hr <;> simp [Sum.isRight] at hr
      | inr s => rfl
    | inr s => rfl

/-- Witness for C2: `x(12:3)` resolves to
`std_logic_vector(12 downto 3)` with high 12, low 3 and concrete
length 10 = 12 - 3 + 1. -/
theorem decode_range_name_witness :
    ∃ p', ({ name := "x(" ++ ("12") ++ ":" ++ ("3") ++ ")" } : Port).update_from_name [] true =
        some p' ∧
      p'.name = "x" ∧
      p'.high = str_of_val (Sum.inl 12) ∧
      p'.low = str_of_val (Sum.inl 3) ∧
      p'.vhdl_type = "std_logic_vector(" ++ str_of_val (Sum.inl 12) ++ " downto " ++
        str_of_val (Sum.inl 3) ++ ")" ∧
      (∀ Hi Lo : Int, (Sum.inl 12 : Sum Int String) = Sum.inl Hi →
        (Sum.inl 3 : Sum Int String) = Sum.inl Lo →
        p'.length = str_of_int (Hi - Lo + 1)) ∧
      (((Sum.inl 12 : Sum Int String).isRight ∨ (Sum.inl 3 : Sum Int String).isRight) →
        p'.length = str_of_val (Sum.inl 12) ++ "-" ++ str_of_val (Sum.inl 3)) :=
  decode_range_name ("12") ("3") (by decide) (by decide)
    (Sum.inl 12) (Sum.inl 3) (by decide) (by decide)

end KicadFPGA
